import Mathlib

/-!
Verification of the GRE error-tracker backend core logic.

This file gives a shallow embedding, in Lean 4, of the core logic of the
backend: the SM-2 review scheduler (`utils/sm2.py`), the review-submission
endpoint (`submit_review` in `app/main.py`), the exam-session answer
bookkeeping (`submit_exam_answer`, `complete_exam` in `app/main.py`) and the
exam statistics aggregation (`get_exam_statistics` in `app/main.py`).

Modelling conventions:
- Python `int` is `ℤ`, Python `float` is `ℚ` (the spec states all formulas
  in exact arithmetic), Python `bool` is `Bool`.
- `datetime.now()` is an explicit `now : ℤ` parameter (a day-resolution
  timestamp); `now + timedelta(days = d)` is `now + d`.
- A Python dict keyed by `str(mistake_id)` is an association list
  `List (ℤ × Bool)`; `str` is injective on integers so the key type is `ℤ`.
- A raised exception is `Except.error`; the surrounding FastAPI/SQLAlchemy
  session discards uncommitted changes when a handler raises, so an
  erroring operation leaves the persisted state unchanged.
- In `calculate_next_review`, the `quality < 3` branch never assigns
  `new_ease_factor`, so the `return` statement raises `UnboundLocalError`;
  this is modelled by `ApiError.unboundLocal`.
-/

/-- Errors a handler can raise: a Python runtime error (here only the
`UnboundLocalError` in `calculate_next_review`), an HTTP 400 conflict, or an
HTTP 404 not-found. -/
inductive ApiError where
  | unboundLocal : ApiError
  | conflict : ApiError
  | notFound : ApiError
deriving DecidableEq, Repr

/-- Python `int(x)` on a rational: truncation toward zero. -/
def pyInt (x : ℚ) : ℤ :=
  if 0 ≤ x then ⌊x⌋ else -⌊-x⌋

/-- Python `round(x, 1)`: rounding to one decimal place.  (Ties, which
Python resolves to even and which additionally depend on the binary float
representation, are resolved upward here; no claim depends on tie
behaviour, and both sides of every statement use this same function.) -/
def pyRound1 (x : ℚ) : ℚ :=
  (round (x * 10) : ℤ) / 10

/-- Embedding of `calculate_next_review` from `utils/sm2.py`.

```python
if quality < 3:
    new_interval = 1
    new_repetition_count = 0
else:
    new_ease_factor = ease_factor + (0.1 - (5 - quality) * (0.08 + (5 - quality) * 0.02))
    if new_ease_factor < 1.3:
        new_ease_factor = 1.3
    if repetition_count == 0:
        new_interval = 1
    elif repetition_count == 1:
        new_interval = 6
    else:
        new_interval = int(interval * new_ease_factor)
    new_repetition_count = repetition_count + 1
next_review_date = datetime.now() + timedelta(days=new_interval)
return new_interval, new_ease_factor, new_repetition_count, next_review_date
```

In the `quality < 3` branch the local `new_ease_factor` is never assigned,
so the `return` raises `UnboundLocalError`: that branch is `.error`. -/
def calculate_next_review (quality interval : ℤ) (ease_factor : ℚ)
    (repetition_count : ℤ) (now : ℤ) : Except ApiError (ℤ × ℚ × ℤ × ℤ) :=
  if quality < 3 then
    -- new_interval = 1, new_repetition_count = 0, but the `return`
    -- evaluates the unassigned local `new_ease_factor` and raises.
    .error .unboundLocal
  else
    let new_ease_factor0 : ℚ :=
      ease_factor + (1/10 - ((5 : ℚ) - quality) * (8/100 + ((5 : ℚ) - quality) * (2/100)))
    let new_ease_factor : ℚ :=
      if new_ease_factor0 < 13/10 then 13/10 else new_ease_factor0
    let new_interval : ℤ :=
      if repetition_count = 0 then 1
      else if repetition_count = 1 then 6
      else pyInt (interval * new_ease_factor)
    let new_repetition_count : ℤ := repetition_count + 1
    .ok (new_interval, new_ease_factor, new_repetition_count, now + new_interval)

/-- The success-branch ease-factor update, as the claims state it:
the SM-2 increment floored at `1.3`. -/
def specNewEase (ease_factor : ℚ) (quality : ℤ) : ℚ :=
  max (13/10) (ease_factor + (1/10 - ((5 : ℚ) - quality) * (8/100 + ((5 : ℚ) - quality) * (2/100))))

theorem pyInt_of_nonneg {x : ℚ} (h : 0 ≤ x) : pyInt x = ⌊x⌋ := by
  simp [pyInt, h]

theorem if_lt_eq_max (a b : ℚ) : (if b < a then a else b) = max a b := by
  rcases lt_or_le b a with h | h
  · simp [h, max_eq_left h.le]
  · simp [not_lt.mpr h, max_eq_right h]

/-- Claim C2: for quality in [3,5] and a well-formed prior state,
`calculate_next_review` returns the SM-2 ease-factor update floored at 1.3
(hence never below 1.3), the interval 1 / 6 / ⌊interval·ease⌋ by repetition
count, repetition count + 1, and a next review date of now + new interval
days. -/
theorem calculate_next_review_success (quality interval repetition_count now : ℤ)
    (ease_factor : ℚ) (h3 : 3 ≤ quality) (h5 : quality ≤ 5) (hi : 0 ≤ interval)
    (he : 13/10 ≤ ease_factor) (hr : 0 ≤ repetition_count) :
    calculate_next_review quality interval ease_factor repetition_count now =
      .ok (if repetition_count = 0 then 1
           else if repetition_count = 1 then 6
           else ⌊(interval : ℚ) * specNewEase ease_factor quality⌋,
           specNewEase ease_factor quality,
           repetition_count + 1,
           now + (if repetition_count = 0 then 1
                  else if repetition_count = 1 then 6
                  else ⌊(interval : ℚ) * specNewEase ease_factor quality⌋)) ∧
      13/10 ≤ specNewEase ease_factor quality := by
  have hq : ¬ quality < 3 := not_lt.mpr h3
  have hmax : (if ease_factor + (1/10 - ((5 : ℚ) - quality) * (8/100 + ((5 : ℚ) - quality) * (2/100))) < 13/10
      then (13/10 : ℚ)
      else ease_factor + (1/10 - ((5 : ℚ) - quality) * (8/100 + ((5 : ℚ) - quality) * (2/100))))
      = specNewEase ease_factor quality := by
    rw [specNewEase, if_lt_eq_max]
  have hease : (13 : ℚ)/10 ≤ specNewEase ease_factor quality := le_max_left _ _
  have hprod : (0 : ℚ) ≤ (interval : ℚ) * specNewEase ease_factor quality := by
    have h1 : (0 : ℚ) ≤ (interval : ℚ) := by exact_mod_cast hi
    have h2 : (0 : ℚ) ≤ specNewEase ease_factor quality := le_trans (by norm_num) hease
    exact mul_nonneg h1 h2
  refine ⟨?_, hease⟩
  simp only [calculate_next_review, hq, if_false, hmax, pyInt_of_nonneg hprod]

/-- Witness for claim C2. -/
theorem calculate_next_review_success_witness :
    calculate_next_review 5 0 (5/2) 0 0 =
      .ok (if (0 : ℤ) = 0 then 1
           else if (0 : ℤ) = 1 then 6
           else ⌊((0 : ℤ) : ℚ) * specNewEase (5/2) 5⌋,
           specNewEase (5/2) 5,
           (0 : ℤ) + 1,
           0 + (if (0 : ℤ) = 0 then 1
                else if (0 : ℤ) = 1 then 6
                else ⌊((0 : ℤ) : ℚ) * specNewEase (5/2) 5⌋)) ∧
      13/10 ≤ specNewEase (5/2) 5 :=
  calculate_next_review_success 5 0 0 0 (5/2) (by norm_num) (by norm_num)
    (by norm_num) (by norm_num) (by norm_num)

/-- Claim C1: the claim says a lapse (quality in [1,2]) returns
new_interval = 1, new_repetition_count = 0 and the ease factor unchanged,
without raising.  The code instead raises `UnboundLocalError` on every
lapse: `new_ease_factor` is only assigned in the `quality >= 3` branch, yet
the `return` statement reads it.  This evaluates the code at the spec's own
§8 scenario (quality=2, interval=30, ease_factor=2.8, repetition_count=4),
which the spec expects to return (1, 2.8, 0, _). -/
theorem calculate_next_review_lapse_raises :
    calculate_next_review 2 30 (14/5) 4 0 = .error .unboundLocal := by
  rfl

theorem calculate_next_review_ok (q i rc now : ℤ) (ef : ℚ) (h : ¬ q < 3) :
    calculate_next_review q i ef rc now =
      .ok (if rc = 0 then 1 else if rc = 1 then 6 else pyInt (i * specNewEase ef q),
           specNewEase ef q, rc + 1,
           now + (if rc = 0 then 1 else if rc = 1 then 6
                  else pyInt (i * specNewEase ef q))) := by
  simp only [calculate_next_review, h, if_false, if_lt_eq_max, specNewEase]

theorem specNewEase_mono (ef : ℚ) {q1 q2 : ℤ} (h31 : 3 ≤ q1) (h12 : q1 ≤ q2)
    (h25 : q2 ≤ 5) : specNewEase ef q1 ≤ specNewEase ef q2 := by
  apply max_le_max le_rfl
  have hq1 : (q1 : ℚ) ≤ q2 := by exact_mod_cast h12
  have hq2 : (q2 : ℚ) ≤ 5 := by exact_mod_cast h25
  have hq3 : (3 : ℚ) ≤ q1 := by exact_mod_cast h31
  nlinarith [mul_nonneg (sub_nonneg.mpr hq1)
    (by linarith : (0 : ℚ) ≤ 28/100 - (2/100) * ((q1 : ℚ) + q2))]

/-- Claim C8: for a fixed prior state, the new ease factor returned by
`calculate_next_review` is monotonically non-decreasing in the quality
score over quality in [3,5]. -/
theorem calculate_next_review_ease_monotone (q1 q2 interval repetition_count now : ℤ)
    (ease_factor : ℚ) (h31 : 3 ≤ q1) (h12 : q1 ≤ q2) (h25 : q2 ≤ 5) :
    ∃ i1 e1 r1 d1 i2 e2 r2 d2,
      calculate_next_review q1 interval ease_factor repetition_count now = .ok (i1, e1, r1, d1) ∧
      calculate_next_review q2 interval ease_factor repetition_count now = .ok (i2, e2, r2, d2) ∧
      e1 ≤ e2 := by
  have hq1 : ¬ q1 < 3 := not_lt.mpr h31
  have hq2 : ¬ q2 < 3 := not_lt.mpr (le_trans h31 h12)
  exact ⟨_, _, _, _, _, _, _, _,
    calculate_next_review_ok q1 interval repetition_count now ease_factor hq1,
    calculate_next_review_ok q2 interval repetition_count now ease_factor hq2,
    specNewEase_mono ease_factor h31 h12 h25⟩

/-- Witness for claim C8. -/
theorem calculate_next_review_ease_monotone_witness :
    ∃ i1 e1 r1 d1 i2 e2 r2 d2,
      calculate_next_review 3 10 (5/2) 2 0 = .ok (i1, e1, r1, d1) ∧
      calculate_next_review 5 10 (5/2) 2 0 = .ok (i2, e2, r2, d2) ∧
      e1 ≤ e2 :=
  calculate_next_review_ease_monotone 3 5 10 2 0 (5/2)
    (by norm_num) (by norm_num) (by norm_num)

/-- The SRS-relevant fields of a `GREMistake` row (`app/models.py`);
`section` is a Lean keyword, hence `section'`. -/
structure Mistake where
  id : ℤ
  section' : String
  mastered : Bool
  interval : ℤ
  ease_factor : ℚ
  repetition_count : ℤ
  total_attempts : ℤ
  got_correct : Bool
  next_review_date : ℤ
deriving DecidableEq, Repr

/-- Embedding of the `submit_review` endpoint (`app/main.py`), for a mistake
that was found.  Mirrors the handler:

```python
if mistake.mastered:
    raise HTTPException(status_code=400, detail="This item is already mastered")
mistake.total_attempts = (mistake.total_attempts or 0) + 1
if review.quality >= 4:
    mistake.got_correct = True
new_interval, new_ease_factor, new_repetition_count, next_review_date = calculate_next_review(...)
mistake.interval = new_interval
mistake.ease_factor = new_ease_factor
mistake.repetition_count = new_repetition_count
mistake.next_review_date = next_review_date
if new_repetition_count >= 5:
    mistake.mastered = True
db.commit()
```

If `calculate_next_review` raises, the handler propagates the exception and
`db.commit()` is never reached, so the session's uncommitted mutations
(`total_attempts`, `got_correct`) are discarded: an error leaves the row
unchanged. -/
def submit_review (quality : ℤ) (m : Mistake) (now : ℤ) : Except ApiError Mistake :=
  if m.mastered then .error .conflict
  else
    match calculate_next_review quality m.interval m.ease_factor m.repetition_count now with
    | .error e => .error e
    | .ok (new_interval, new_ease_factor, new_repetition_count, next_review_date) =>
      .ok { m with
            total_attempts := m.total_attempts + 1,
            got_correct := if 4 ≤ quality then true else m.got_correct,
            interval := new_interval,
            ease_factor := new_ease_factor,
            repetition_count := new_repetition_count,
            next_review_date := next_review_date,
            mastered := if 5 ≤ new_repetition_count then true else m.mastered }

/-- Claim C3: a review against an already-mastered mistake fails with a conflict
error (so the row is unchanged and `mastered` never reverts to `false`
through review submissions), and a successful review submission sets
`mastered` to `true` exactly when the new repetition count reaches 5 or
more. -/
theorem submit_review_mastered_spec (m : Mistake) (quality now : ℤ) :
    (m.mastered = true → submit_review quality m now = .error .conflict) ∧
    (∀ m', submit_review quality m now = .ok m' →
      m.mastered = false ∧ (m'.mastered = true ↔ 5 ≤ m'.repetition_count)) := by
  constructor
  · intro h
    simp [submit_review, h]
  · intro m' h
    by_cases hm : m.mastered
    · simp [submit_review, hm] at h
    · refine ⟨by simpa using hm, ?_⟩
      rw [submit_review, if_neg hm] at h
      rcases hcalc : calculate_next_review quality m.interval m.ease_factor
          m.repetition_count now with e | r
      · rw [hcalc] at h; exact absurd h (by simp)
      · obtain ⟨ni, ne, nr, nd⟩ := r
        rw [hcalc] at h
        simp only [Except.ok.injEq] at h
        subst h
        by_cases h5 : 5 ≤ nr
        · simp [h5]
        · simp [h5, hm]

/-- Witness for claim C3: applying the theorem to a concrete mastered mistake. -/
theorem submit_review_mastered_spec_witness :
    submit_review 5 ⟨1, "Quant", true, 0, 5/2, 5, 5, true, 0⟩ 0 = .error .conflict :=
  (submit_review_mastered_spec ⟨1, "Quant", true, 0, 5/2, 5, 5, true, 0⟩ 5 0).1 rfl

/-- The bookkeeping fields of an `ExamSession` row (`app/models.py`).
`answers` is the JSON dict keyed by `str(mistake_id)`, as an association
list with at most one entry per key. -/
structure ExamSession where
  id : ℤ
  total_problems : ℤ
  correct_count : ℤ
  incorrect_count : ℤ
  completed_at : Option ℤ
  mistake_ids : List ℤ
  answers : List (ℤ × Bool)
deriving DecidableEq, Repr

/-- Dict read: `d.get(k)` / `k in d`, first (unique) matching key. -/
def dictLookup : List (ℤ × Bool) → ℤ → Option Bool
  | [], _ => none
  | (k', v') :: d, k => if k' = k then some v' else dictLookup d k

/-- Dict write: `d[k] = v`, replacing the (unique) entry for `k` in place,
or appending a new entry at the end, as a Python dict does. -/
def dictInsert : List (ℤ × Bool) → ℤ → Bool → List (ℤ × Bool)
  | [], k, v => [(k, v)]
  | (k', v') :: d, k, v => if k' = k then (k, v) :: d else (k', v') :: dictInsert d k v

/-- Embedding of the relevant part of the `create_exam_session` endpoint
(`app/main.py`): the new row starts with `answers={}`,
`total_problems=len(mistakes)`, `mistake_ids=[m.id for m in mistakes]` and
the column-default counters `correct_count=0`, `incorrect_count=0`,
`completed_at` null. -/
def create_exam_session (id : ℤ) (mistake_ids : List ℤ) : ExamSession :=
  { id := id,
    total_problems := mistake_ids.length,
    correct_count := 0,
    incorrect_count := 0,
    completed_at := none,
    mistake_ids := mistake_ids,
    answers := [] }

/-- Embedding of the `submit_exam_answer` endpoint (`app/main.py`), for a
session that was found:

```python
if exam.completed_at:
    raise HTTPException(status_code=400, detail="Exam session already completed")
if not exam.answers:
    exam.answers = {}          # no-op on the empty dict
mistake_key = str(answer.mistake_id)
was_already_answered = mistake_key in exam.answers
previous_answer = exam.answers.get(mistake_key)
exam.answers[mistake_key] = answer.is_correct
if not was_already_answered:
    if answer.is_correct: exam.correct_count += 1
    else: exam.incorrect_count += 1
elif previous_answer != answer.is_correct:
    if previous_answer: exam.correct_count -= 1; exam.incorrect_count += 1
    else: exam.incorrect_count -= 1; exam.correct_count += 1
```

(The handler performs no check of `mistake_id` against
`exam.mistake_ids`, nor against the mistake table.) -/
def submit_exam_answer (exam : ExamSession) (mistake_id : ℤ) (is_correct : Bool) :
    Except ApiError ExamSession :=
  if exam.completed_at.isSome then .error .conflict
  else
    let was_already_answered := (dictLookup exam.answers mistake_id).isSome
    let previous_answer := dictLookup exam.answers mistake_id
    let answers' := dictInsert exam.answers mistake_id is_correct
    if ¬ was_already_answered then
      if is_correct then
        .ok { exam with answers := answers', correct_count := exam.correct_count + 1 }
      else
        .ok { exam with answers := answers', incorrect_count := exam.incorrect_count + 1 }
    else if previous_answer ≠ some is_correct then
      if previous_answer = some true then
        .ok { exam with
              answers := answers',
              correct_count := exam.correct_count - 1,
              incorrect_count := exam.incorrect_count + 1 }
      else
        .ok { exam with
              answers := answers',
              incorrect_count := exam.incorrect_count - 1,
              correct_count := exam.correct_count + 1 }
    else
      .ok { exam with answers := answers' }

/-- Embedding of the `complete_exam` endpoint (`app/main.py`), for a session
that was found: conflict if already completed, otherwise set
`completed_at = datetime.now()`. -/
def complete_exam (exam : ExamSession) (now : ℤ) : Except ApiError ExamSession :=
  if exam.completed_at.isSome then .error .conflict
  else .ok { exam with completed_at := some now }

theorem dictLookup_dictInsert (d : List (ℤ × Bool)) (k : ℤ) (v : Bool) :
    dictLookup (dictInsert d k v) k = some v := by
  induction d with
  | nil => simp [dictInsert, dictLookup]
  | cons p d ih =>
    by_cases h : p.1 = k
    · simp [dictInsert, dictLookup, h]
    · simpa [dictInsert, dictLookup, h] using ih

/-- Claim C4: on a non-completed session, submit-answer stores `is_correct` as
the latest answer for `mistake_id` (overwriting any previous value); a new
answer increments exactly the matching counter; a differing prior answer
moves one count from the old value's counter to the new value's counter;
resubmitting the same value leaves both counters unchanged. -/
theorem submit_exam_answer_counts (e : ExamSession) (mid : ℤ) (b : Bool)
    (h : e.completed_at = none) :
    ∃ e', submit_exam_answer e mid b = .ok e' ∧
      dictLookup e'.answers mid = some b ∧
      (dictLookup e.answers mid = none →
        (if b then e'.correct_count = e.correct_count + 1 ∧
                   e'.incorrect_count = e.incorrect_count
         else e'.correct_count = e.correct_count ∧
              e'.incorrect_count = e.incorrect_count + 1)) ∧
      (∀ p, dictLookup e.answers mid = some p →
        (p = b → e'.correct_count = e.correct_count ∧
                 e'.incorrect_count = e.incorrect_count) ∧
        (p ≠ b →
          (if b then e'.correct_count = e.correct_count + 1 ∧
                     e'.incorrect_count = e.incorrect_count - 1
           else e'.correct_count = e.correct_count - 1 ∧
                e'.incorrect_count = e.incorrect_count + 1))) := by
  rcases hlk : dictLookup e.answers mid with _ | p
  · cases b <;> simp [submit_exam_answer, h, hlk, dictLookup_dictInsert]
  · rcases p <;> cases b <;>
      simp [submit_exam_answer, h, hlk, dictLookup_dictInsert]

/-- Witness for claim C4. -/
theorem submit_exam_answer_counts_witness :
    ∃ e', submit_exam_answer (create_exam_session 1 []) 3 true = .ok e' ∧
      dictLookup e'.answers 3 = some true ∧
      (dictLookup (create_exam_session 1 []).answers 3 = none →
        (if true then e'.correct_count = (create_exam_session 1 []).correct_count + 1 ∧
                      e'.incorrect_count = (create_exam_session 1 []).incorrect_count
         else e'.correct_count = (create_exam_session 1 []).correct_count ∧
              e'.incorrect_count = (create_exam_session 1 []).incorrect_count + 1)) ∧
      (∀ p, dictLookup (create_exam_session 1 []).answers 3 = some p →
        (p = true → e'.correct_count = (create_exam_session 1 []).correct_count ∧
                    e'.incorrect_count = (create_exam_session 1 []).incorrect_count) ∧
        (p ≠ true →
          (if true then e'.correct_count = (create_exam_session 1 []).correct_count + 1 ∧
                        e'.incorrect_count = (create_exam_session 1 []).incorrect_count - 1
           else e'.correct_count = (create_exam_session 1 []).correct_count - 1 ∧
                e'.incorrect_count = (create_exam_session 1 []).incorrect_count + 1))) :=
  submit_exam_answer_counts (create_exam_session 1 []) 3 true rfl

/-- Claim C5: on a session whose `completed_at` is non-null, both submit-answer
and complete fail with a conflict error (leaving the session unchanged),
and a successful completion requires `completed_at` to have been null and
sets it, so `completed_at` is set at most once and there is no transition
back from Completed. -/
theorem completed_exam_rejects_updates (e : ExamSession) (mid now : ℤ) (b : Bool) :
    (e.completed_at ≠ none →
      submit_exam_answer e mid b = .error .conflict ∧
      complete_exam e now = .error .conflict) ∧
    (∀ e', complete_exam e now = .ok e' →
      e.completed_at = none ∧ e'.completed_at = some now) := by
  constructor
  · intro h
    have hs : e.completed_at.isSome = true := Option.isSome_iff_ne_none.mpr h
    constructor
    · simp [submit_exam_answer, hs]
    · simp [complete_exam, hs]
  · intro e' h
    rcases hc : e.completed_at with _ | t
    · rw [complete_exam, hc] at h
      simp only [Option.isSome_none, Bool.false_eq_true, if_false, Except.ok.injEq] at h
      subst h
      exact ⟨rfl, rfl⟩
    · rw [complete_exam, hc] at h
      simp at h

/-- Witness for claim C5: a concretely completed session rejects both operations. -/
theorem completed_exam_rejects_updates_witness :
    submit_exam_answer ⟨1, 1, 1, 0, some 7, [10], [(10, true)]⟩ 10 false = .error .conflict ∧
    complete_exam ⟨1, 1, 1, 0, some 7, [10], [(10, true)]⟩ 8 = .error .conflict :=
  (completed_exam_rejects_updates ⟨1, 1, 1, 0, some 7, [10], [(10, true)]⟩ 10 8 false).1
    (by simp)

/-- Claim C10: submit-answer performs no membership check of `mistake_id`
against the session's `mistake_ids` (nor against the mistake table): on any
non-completed session, any integer id is recorded; consequently, starting
from a freshly created one-problem session, two answers for ids outside the
set drive `correct_count + incorrect_count` above `total_problems`. -/
theorem submit_exam_answer_no_membership_check :
    (∀ (e : ExamSession) (mid : ℤ) (b : Bool), e.completed_at = none →
      ∃ e', submit_exam_answer e mid b = .ok e' ∧
        dictLookup e'.answers mid = some b) ∧
    (∃ e1 e2, submit_exam_answer (create_exam_session 1 [10]) 5 true = .ok e1 ∧
      submit_exam_answer e1 7 true = .ok e2 ∧
      e2.total_problems < e2.correct_count + e2.incorrect_count) := by
  constructor
  · intro e mid b h
    rcases hlk : dictLookup e.answers mid with _ | p
    · cases b <;> simp [submit_exam_answer, h, hlk, dictLookup_dictInsert]
    · rcases p <;> cases b <;>
        simp [submit_exam_answer, h, hlk, dictLookup_dictInsert]
  · exact ⟨⟨1, 1, 1, 0, none, [10], [(5, true)]⟩,
      ⟨1, 1, 2, 0, none, [10], [(5, true), (7, true)]⟩, rfl, rfl, by decide⟩

/-- Witness for claim C10. -/
theorem submit_exam_answer_no_membership_check_witness :
    ∃ e', submit_exam_answer (create_exam_session 2 []) 42 true = .ok e' ∧
      dictLookup e'.answers 42 = some true :=
  submit_exam_answer_no_membership_check.1 (create_exam_session 2 []) 42 true rfl

theorem dictLookup_eq_none_iff (d : List (ℤ × Bool)) (k : ℤ) :
    dictLookup d k = none ↔ k ∉ d.map Prod.fst := by
  induction d with
  | nil => simp [dictLookup]
  | cons p d ih =>
    by_cases h : p.1 = k
    · simp [dictLookup, h]
    · rw [dictLookup, if_neg h, ih]
      simp only [List.map_cons, List.mem_cons, not_or]
      exact ⟨fun hk => ⟨fun he => h he.symm, hk⟩, fun hk => hk.2⟩

theorem dictInsert_of_none {d : List (ℤ × Bool)} {k : ℤ} (v : Bool)
    (h : dictLookup d k = none) : dictInsert d k v = d ++ [(k, v)] := by
  induction d with
  | nil => simp [dictInsert]
  | cons p d ih =>
    rw [dictLookup] at h
    by_cases hk : p.1 = k
    · simp [hk] at h
    · rw [if_neg hk] at h
      simp [dictInsert, hk, ih h]

theorem map_fst_dictInsert_of_some {d : List (ℤ × Bool)} {k : ℤ} {p : Bool} (v : Bool)
    (h : dictLookup d k = some p) :
    (dictInsert d k v).map Prod.fst = d.map Prod.fst := by
  induction d with
  | nil => simp [dictLookup] at h
  | cons q d ih =>
    rw [dictLookup] at h
    by_cases hk : q.1 = k
    · simp [dictInsert, hk]
    · rw [if_neg hk] at h
      simp [dictInsert, hk, ih h]

/-- The bookkeeping invariant of an exam session: the answer dict has
pairwise-distinct keys and the two counters sum to its size. -/
def CountsInv (e : ExamSession) : Prop :=
  (e.answers.map Prod.fst).Nodup ∧
  e.correct_count + e.incorrect_count = e.answers.length

theorem nodup_append_key {l : List ℤ} {k : ℤ} (hnd : l.Nodup) (hk : k ∉ l) :
    (l ++ [k]).Nodup := by
  refine List.Nodup.append hnd (List.nodup_singleton k) ?_
  intro a ha hb
  rw [List.mem_singleton] at hb
  exact hk (hb ▸ ha)

theorem submit_exam_answer_preserves_inv {e e' : ExamSession} {mid : ℤ} {b : Bool}
    (h : submit_exam_answer e mid b = .ok e') (hI : CountsInv e) : CountsInv e' := by
  obtain ⟨hnd, hsum⟩ := hI
  by_cases hc : e.completed_at.isSome
  · simp [submit_exam_answer, hc] at h
  · rcases hlk : dictLookup e.answers mid with _ | p
    · have hins := dictInsert_of_none b hlk
      have hnotin : mid ∉ e.answers.map Prod.fst := (dictLookup_eq_none_iff _ _).mp hlk
      cases b <;>
        · simp only [submit_exam_answer, hc, Bool.false_eq_true, if_false, hlk,
            Option.isSome_none, not_false_iff, if_true, Except.ok.injEq] at h
          subst h
          constructor
          · simp only [hins, List.map_append, List.map_cons, List.map_nil]
            exact nodup_append_key hnd hnotin
          · simp only [hins, List.length_append, List.length_cons, List.length_nil]
            push_cast
            omega
    · have hfst := map_fst_dictInsert_of_some b hlk
      have hlen : (dictInsert e.answers mid b).length = e.answers.length := by
        have := congrArg List.length hfst
        simpa using this
      rcases p <;> cases b <;>
        · simp only [submit_exam_answer, hc, Bool.false_eq_true, if_false, hlk,
            Option.isSome_some, not_true, ite_false, ite_true, ne_eq,
            Option.some.injEq, Bool.true_eq_false, not_false_iff,
            not_true_eq_false, Except.ok.injEq] at h
          subst h
          refine ⟨hfst ▸ hnd, ?_⟩
          simp only [hlen]
          omega

/-- Replaying a sequence of submit-answer operations against a session,
keeping the prior state whenever an operation fails (a raised exception
commits nothing). -/
def applyAnswers (e : ExamSession) : List (ℤ × Bool) → ExamSession
  | [] => e
  | (mid, b) :: ops =>
    match submit_exam_answer e mid b with
    | .ok e' => applyAnswers e' ops
    | .error _ => applyAnswers e ops

theorem applyAnswers_preserves_inv (ops : List (ℤ × Bool)) {e : ExamSession}
    (hI : CountsInv e) : CountsInv (applyAnswers e ops) := by
  induction ops generalizing e with
  | nil => exact hI
  | cons op ops ih =>
    obtain ⟨mid, b⟩ := op
    rw [applyAnswers]
    rcases hs : submit_exam_answer e mid b with _ | e'
    · exact ih hI
    · exact ih (submit_exam_answer_preserves_inv hs hI)

/-- Claim C6: for every session reachable from creation (empty answers, both
counters zero) by any sequence of submit-answer operations,
`correct_count + incorrect_count` equals the number of distinct keys of the
answer mapping. -/
theorem exam_counts_match_distinct_answers (id : ℤ) (mistake_ids : List ℤ)
    (ops : List (ℤ × Bool)) :
    (applyAnswers (create_exam_session id mistake_ids) ops).correct_count +
      (applyAnswers (create_exam_session id mistake_ids) ops).incorrect_count =
      (((applyAnswers (create_exam_session id mistake_ids) ops).answers.map
          Prod.fst).dedup.length : ℤ) := by
  have hI : CountsInv (create_exam_session id mistake_ids) := by
    constructor <;> simp [create_exam_session]
  have h := applyAnswers_preserves_inv ops hI
  rw [h.1.dedup, List.length_map]
  exact h.2

/-- The mistake table lookup
`db.query(GREMistake).filter(GREMistake.id == mistake_id).first()`:
first row with the given id, if any. -/
def findMistake (table : List Mistake) (mistake_id : ℤ) : Option Mistake :=
  table.find? (fun m => m.id = mistake_id)

/-- The per-exam loop counters of `get_exam_statistics` together with the
global correct/incorrect counters they move in lockstep with: for one exam
the handler increments `quant_in_exam`/`quant_total_problems`,
`quant_correct_in_exam`/`quant_correct` and `quant_incorrect` (and the
verbal counterparts) in the same branches, so one record per exam carries
all the increments. -/
structure ExamTally where
  quant_in_exam : ℤ
  quant_correct_in_exam : ℤ
  quant_incorrect : ℤ
  verbal_in_exam : ℤ
  verbal_correct_in_exam : ℤ
  verbal_incorrect : ℤ
deriving DecidableEq, Repr

/-- The body of the inner loop of `get_exam_statistics`:

```python
for mistake_id in exam.mistake_ids:
    mistake = db.query(GREMistake).filter(GREMistake.id == mistake_id).first()
    if mistake:
        is_correct = exam.answers.get(str(mistake_id), False)
        if mistake.section == "Quant":
            quant_in_exam += 1
            quant_total_problems += 1
            if is_correct:
                quant_correct_in_exam += 1
                quant_correct += 1
            else:
                quant_incorrect += 1
        elif mistake.section == "Verbal":
            ... symmetric ...
```
-/
def tally_mistake (table : List Mistake) (answers : List (ℤ × Bool))
    (acc : ExamTally) (mistake_id : ℤ) : ExamTally :=
  match findMistake table mistake_id with
  | none => acc
  | some mistake =>
    let is_correct := (dictLookup answers mistake_id).getD false
    if mistake.section' = "Quant" then
      if is_correct then
        { acc with
          quant_in_exam := acc.quant_in_exam + 1,
          quant_correct_in_exam := acc.quant_correct_in_exam + 1 }
      else
        { acc with
          quant_in_exam := acc.quant_in_exam + 1,
          quant_incorrect := acc.quant_incorrect + 1 }
    else if mistake.section' = "Verbal" then
      if is_correct then
        { acc with
          verbal_in_exam := acc.verbal_in_exam + 1,
          verbal_correct_in_exam := acc.verbal_correct_in_exam + 1 }
      else
        { acc with
          verbal_in_exam := acc.verbal_in_exam + 1,
          verbal_incorrect := acc.verbal_incorrect + 1 }
    else acc

/-- The global accumulators of `get_exam_statistics` across exams. -/
structure StatsAcc where
  quant_total_problems : ℤ
  quant_correct : ℤ
  quant_incorrect : ℤ
  quant_exam_ids : Finset ℤ
  verbal_total_problems : ℤ
  verbal_correct : ℤ
  verbal_incorrect : ℤ
  verbal_exam_ids : Finset ℤ
deriving DecidableEq

/-- One iteration of the outer loop of `get_exam_statistics`: run the inner
loop over `exam.mistake_ids` from zeroed per-exam counters, add the
increments to the global counters, and add the exam id to a section's id
set when the exam contained at least one problem of that section
(`if quant_in_exam > 0: quant_exam_ids.add(exam.id)`). -/
def process_exam (table : List Mistake) (acc : StatsAcc) (exam : ExamSession) :
    StatsAcc :=
  let t := exam.mistake_ids.foldl (tally_mistake table exam.answers) ⟨0, 0, 0, 0, 0, 0⟩
  { quant_total_problems := acc.quant_total_problems + t.quant_in_exam,
    quant_correct := acc.quant_correct + t.quant_correct_in_exam,
    quant_incorrect := acc.quant_incorrect + t.quant_incorrect,
    quant_exam_ids :=
      if 0 < t.quant_in_exam then insert exam.id acc.quant_exam_ids
      else acc.quant_exam_ids,
    verbal_total_problems := acc.verbal_total_problems + t.verbal_in_exam,
    verbal_correct := acc.verbal_correct + t.verbal_correct_in_exam,
    verbal_incorrect := acc.verbal_incorrect + t.verbal_incorrect,
    verbal_exam_ids :=
      if 0 < t.verbal_in_exam then insert exam.id acc.verbal_exam_ids
      else acc.verbal_exam_ids }

/-- The response dict of `get_exam_statistics`. -/
structure ExamStats where
  quant_total_problems : ℤ
  quant_correct : ℤ
  quant_incorrect : ℤ
  quant_percentage : ℚ
  quant_exam_count : ℕ
  quant_total_mistakes : ℕ
  quant_mastered : ℕ
  quant_in_progress : ℤ
  verbal_total_problems : ℤ
  verbal_correct : ℤ
  verbal_incorrect : ℤ
  verbal_percentage : ℚ
  verbal_exam_count : ℕ
  verbal_total_mistakes : ℕ
  verbal_mastered : ℕ
  verbal_in_progress : ℤ
  total_exams : ℕ
deriving DecidableEq

/-- Embedding of the `get_exam_statistics` endpoint (`app/main.py`): scan
the completed sessions, accumulate per-section counters and exam-id sets,
then compute `percentage = correct / total * 100 if total > 0 else 0`,
rounded to one decimal in the response, and the mistake-table tallies. -/
def get_exam_statistics (table : List Mistake) (exams : List ExamSession) :
    ExamStats :=
  let all_exams := exams.filter (fun e => e.completed_at.isSome)
  let acc := all_exams.foldl (process_exam table) ⟨0, 0, 0, ∅, 0, 0, 0, ∅⟩
  let quant_percentage : ℚ :=
    if 0 < acc.quant_total_problems then
      (acc.quant_correct : ℚ) / (acc.quant_total_problems : ℚ) * 100
    else 0
  let verbal_percentage : ℚ :=
    if 0 < acc.verbal_total_problems then
      (acc.verbal_correct : ℚ) / (acc.verbal_total_problems : ℚ) * 100
    else 0
  let quant_mistakes := table.filter (fun m => m.section' = "Quant")
  let verbal_mistakes := table.filter (fun m => m.section' = "Verbal")
  let quant_mastered := (quant_mistakes.filter (fun m => m.mastered)).length
  let verbal_mastered := (verbal_mistakes.filter (fun m => m.mastered)).length
  { quant_total_problems := acc.quant_total_problems,
    quant_correct := acc.quant_correct,
    quant_incorrect := acc.quant_incorrect,
    quant_percentage := pyRound1 quant_percentage,
    quant_exam_count := acc.quant_exam_ids.card,
    quant_total_mistakes := quant_mistakes.length,
    quant_mastered := quant_mastered,
    quant_in_progress := (quant_mistakes.length : ℤ) - quant_mastered,
    verbal_total_problems := acc.verbal_total_problems,
    verbal_correct := acc.verbal_correct,
    verbal_incorrect := acc.verbal_incorrect,
    verbal_percentage := pyRound1 verbal_percentage,
    verbal_exam_count := acc.verbal_exam_ids.card,
    verbal_total_mistakes := verbal_mistakes.length,
    verbal_mastered := verbal_mastered,
    verbal_in_progress := (verbal_mistakes.length : ℤ) - verbal_mastered,
    total_exams := all_exams.length }

/-- Restriction of a session's fixed id set to ids that match a stored
mistake row. -/
def keepKnownMistakes (table : List Mistake) (e : ExamSession) : ExamSession :=
  { e with mistake_ids := e.mistake_ids.filter (fun mid => (findMistake table mid).isSome) }

theorem tally_mistake_of_none {table : List Mistake} {mid : ℤ}
    (h : findMistake table mid = none) (ans : List (ℤ × Bool)) (acc : ExamTally) :
    tally_mistake table ans acc mid = acc := by
  simp [tally_mistake, h]

theorem foldl_tally_filter_known (table : List Mistake) (ans : List (ℤ × Bool))
    (l : List ℤ) (acc : ExamTally) :
    (l.filter (fun mid => (findMistake table mid).isSome)).foldl
        (tally_mistake table ans) acc =
      l.foldl (tally_mistake table ans) acc := by
  induction l generalizing acc with
  | nil => rfl
  | cons x l ih =>
    rcases hf : findMistake table x with _ | m
    · rw [List.foldl_cons, tally_mistake_of_none hf]
      rw [List.filter_cons]
      simp only [hf, Option.isSome_none, Bool.false_eq_true, if_false]
      exact ih acc
    · rw [List.foldl_cons, List.filter_cons]
      simp only [hf, Option.isSome_some, if_true, List.foldl_cons]
      exact ih _

theorem process_exam_keepKnown (table : List Mistake) (acc : StatsAcc)
    (e : ExamSession) :
    process_exam table acc (keepKnownMistakes table e) = process_exam table acc e := by
  simp only [process_exam, keepKnownMistakes, foldl_tally_filter_known]

/-- Claim C9: the statistics operation silently skips any mistake id in a
completed session's fixed set that does not match a stored mistake row:
restricting every session's id set to the ids that are found leaves the
entire statistics response unchanged (the skipped ids contribute to no
total, correct count, incorrect count, or exam-count set). -/
theorem get_exam_statistics_skips_unknown_ids (table : List Mistake)
    (exams : List ExamSession) :
    get_exam_statistics table (exams.map (keepKnownMistakes table)) =
      get_exam_statistics table exams := by
  have hfil : (exams.map (keepKnownMistakes table)).filter
        (fun e => e.completed_at.isSome) =
      (exams.filter (fun e => e.completed_at.isSome)).map (keepKnownMistakes table) := by
    rw [List.filter_map]
    rfl
  have hfun : (fun (acc : StatsAcc) (e : ExamSession) =>
      process_exam table acc (keepKnownMistakes table e)) = process_exam table := by
    funext acc e
    exact process_exam_keepKnown table acc e
  simp only [get_exam_statistics, hfil, List.foldl_map, hfun, List.length_map]

/-- From the spec's words: "looks up the mistake's section" — a mistake id
of a session counts for section `sec` when it matches a stored row of that
section. -/
def isSectionProblem (table : List Mistake) (sec : String) (mid : ℤ) : Bool :=
  match findMistake table mid with
  | some m => m.section' = sec
  | none => false

/-- From the spec's words: "the session's recorded correctness for that id
(treating "no recorded answer" as incorrect)". -/
def recordedCorrect (answers : List (ℤ × Bool)) (mid : ℤ) : Bool :=
  (dictLookup answers mid).getD false

/-- From the spec's words: per section, the "total answered problems"
across all completed exam sessions. -/
def specSectionTotal (table : List Mistake) (sec : String)
    (exams : List ExamSession) : ℕ :=
  ((exams.filter (fun e => e.completed_at.isSome)).map
    (fun e => e.mistake_ids.countP (isSectionProblem table sec))).sum

/-- From the spec's words: per section, the correct count across all
completed exam sessions (a problem is correct when its recorded answer is
`true`). -/
def specSectionCorrect (table : List Mistake) (sec : String)
    (exams : List ExamSession) : ℕ :=
  ((exams.filter (fun e => e.completed_at.isSome)).map
    (fun e => e.mistake_ids.countP
      (fun mid => isSectionProblem table sec mid && recordedCorrect e.answers mid))).sum

/-- From the spec's words: per section, the incorrect count — problems of
the section whose recorded answer is not `true`, which includes every id
with no recorded answer. -/
def specSectionIncorrect (table : List Mistake) (sec : String)
    (exams : List ExamSession) : ℕ :=
  ((exams.filter (fun e => e.completed_at.isSome)).map
    (fun e => e.mistake_ids.countP
      (fun mid => isSectionProblem table sec mid && !(recordedCorrect e.answers mid)))).sum

theorem tally_mistake_eq (table : List Mistake) (ans : List (ℤ × Bool))
    (acc : ExamTally) (mid : ℤ) :
    tally_mistake table ans acc mid =
      ⟨acc.quant_in_exam + (if isSectionProblem table "Quant" mid then 1 else 0),
       acc.quant_correct_in_exam +
         (if isSectionProblem table "Quant" mid && recordedCorrect ans mid then 1 else 0),
       acc.quant_incorrect +
         (if isSectionProblem table "Quant" mid && !(recordedCorrect ans mid) then 1 else 0),
       acc.verbal_in_exam + (if isSectionProblem table "Verbal" mid then 1 else 0),
       acc.verbal_correct_in_exam +
         (if isSectionProblem table "Verbal" mid && recordedCorrect ans mid then 1 else 0),
       acc.verbal_incorrect +
         (if isSectionProblem table "Verbal" mid && !(recordedCorrect ans mid) then 1 else 0)⟩ := by
  obtain ⟨a1, a2, a3, a4, a5, a6⟩ := acc
  rcases hf : findMistake table mid with _ | m
  · simp [tally_mistake, isSectionProblem, hf]
  · by_cases hq : m.section' = "Quant"
    · rcases hc : (dictLookup ans mid).getD false <;>
        simp [tally_mistake, isSectionProblem, recordedCorrect, hf, hq, hc]
    · by_cases hv : m.section' = "Verbal"
      · rcases hc : (dictLookup ans mid).getD false <;>
          simp [tally_mistake, isSectionProblem, recordedCorrect, hf, hq, hv, hc]
      · simp [tally_mistake, isSectionProblem, hf, hq, hv]

theorem foldl_tally_eq (table : List Mistake) (ans : List (ℤ × Bool))
    (l : List ℤ) (acc : ExamTally) :
    l.foldl (tally_mistake table ans) acc =
      ⟨acc.quant_in_exam + (l.countP (isSectionProblem table "Quant") : ℤ),
       acc.quant_correct_in_exam +
         (l.countP (fun mid => isSectionProblem table "Quant" mid &&
            recordedCorrect ans mid) : ℤ),
       acc.quant_incorrect +
         (l.countP (fun mid => isSectionProblem table "Quant" mid &&
            !(recordedCorrect ans mid)) : ℤ),
       acc.verbal_in_exam + (l.countP (isSectionProblem table "Verbal") : ℤ),
       acc.verbal_correct_in_exam +
         (l.countP (fun mid => isSectionProblem table "Verbal" mid &&
            recordedCorrect ans mid) : ℤ),
       acc.verbal_incorrect +
         (l.countP (fun mid => isSectionProblem table "Verbal" mid &&
            !(recordedCorrect ans mid)) : ℤ)⟩ := by
  induction l generalizing acc with
  | nil =>
    obtain ⟨a1, a2, a3, a4, a5, a6⟩ := acc
    simp [List.countP_nil]
  | cons x l ih =>
    rw [List.foldl_cons, tally_mistake_eq, ih]
    simp only [List.countP_cons, ExamTally.mk.injEq]
    refine ⟨?_, ?_, ?_, ?_, ?_, ?_⟩ <;>
      · split_ifs <;> push_cast <;> ring

theorem process_exam_fields (table : List Mistake) (acc : StatsAcc)
    (exam : ExamSession) :
    (process_exam table acc exam).quant_total_problems =
        acc.quant_total_problems +
          (exam.mistake_ids.countP (isSectionProblem table "Quant") : ℤ) ∧
    (process_exam table acc exam).quant_correct =
        acc.quant_correct +
          (exam.mistake_ids.countP (fun mid => isSectionProblem table "Quant" mid &&
            recordedCorrect exam.answers mid) : ℤ) ∧
    (process_exam table acc exam).quant_incorrect =
        acc.quant_incorrect +
          (exam.mistake_ids.countP (fun mid => isSectionProblem table "Quant" mid &&
            !(recordedCorrect exam.answers mid)) : ℤ) ∧
    (process_exam table acc exam).verbal_total_problems =
        acc.verbal_total_problems +
          (exam.mistake_ids.countP (isSectionProblem table "Verbal") : ℤ) ∧
    (process_exam table acc exam).verbal_correct =
        acc.verbal_correct +
          (exam.mistake_ids.countP (fun mid => isSectionProblem table "Verbal" mid &&
            recordedCorrect exam.answers mid) : ℤ) ∧
    (process_exam table acc exam).verbal_incorrect =
        acc.verbal_incorrect +
          (exam.mistake_ids.countP (fun mid => isSectionProblem table "Verbal" mid &&
            !(recordedCorrect exam.answers mid)) : ℤ) := by
  simp [process_exam, foldl_tally_eq]

theorem foldl_process_eq (table : List Mistake) (exams' : List ExamSession)
    (acc : StatsAcc) :
    (exams'.foldl (process_exam table) acc).quant_total_problems =
        acc.quant_total_problems +
          (((exams'.map (fun e =>
            e.mistake_ids.countP (isSectionProblem table "Quant"))).sum : ℕ) : ℤ) ∧
    (exams'.foldl (process_exam table) acc).quant_correct =
        acc.quant_correct +
          (((exams'.map (fun e =>
            e.mistake_ids.countP (fun mid => isSectionProblem table "Quant" mid &&
              recordedCorrect e.answers mid))).sum : ℕ) : ℤ) ∧
    (exams'.foldl (process_exam table) acc).quant_incorrect =
        acc.quant_incorrect +
          (((exams'.map (fun e =>
            e.mistake_ids.countP (fun mid => isSectionProblem table "Quant" mid &&
              !(recordedCorrect e.answers mid)))).sum : ℕ) : ℤ) ∧
    (exams'.foldl (process_exam table) acc).verbal_total_problems =
        acc.verbal_total_problems +
          (((exams'.map (fun e =>
            e.mistake_ids.countP (isSectionProblem table "Verbal"))).sum : ℕ) : ℤ) ∧
    (exams'.foldl (process_exam table) acc).verbal_correct =
        acc.verbal_correct +
          (((exams'.map (fun e =>
            e.mistake_ids.countP (fun mid => isSectionProblem table "Verbal" mid &&
              recordedCorrect e.answers mid))).sum : ℕ) : ℤ) ∧
    (exams'.foldl (process_exam table) acc).verbal_incorrect =
        acc.verbal_incorrect +
          (((exams'.map (fun e =>
            e.mistake_ids.countP (fun mid => isSectionProblem table "Verbal" mid &&
              !(recordedCorrect e.answers mid)))).sum : ℕ) : ℤ) := by
  induction exams' generalizing acc with
  | nil => simp
  | cons e exams' ih =>
    rw [List.foldl_cons]
    obtain ⟨h1, h2, h3, h4, h5, h6⟩ := ih (process_exam table acc e)
    obtain ⟨g1, g2, g3, g4, g5, g6⟩ := process_exam_fields table acc e
    rw [List.map_cons, List.map_cons, List.map_cons, List.map_cons,
      List.map_cons, List.map_cons]
    refine ⟨?_, ?_, ?_, ?_, ?_, ?_⟩ <;>
      · first
        | (rw [h1, g1]; push_cast [List.sum_cons]; ring)
        | (rw [h2, g2]; push_cast [List.sum_cons]; ring)
        | (rw [h3, g3]; push_cast [List.sum_cons]; ring)
        | (rw [h4, g4]; push_cast [List.sum_cons]; ring)
        | (rw [h5, g5]; push_cast [List.sum_cons]; ring)
        | (rw [h6, g6]; push_cast [List.sum_cons]; ring)

theorem countP_split (l : List ℤ) (p q : ℤ → Bool) :
    l.countP p =
      l.countP (fun a => p a && q a) + l.countP (fun a => p a && !(q a)) := by
  induction l with
  | nil => simp
  | cons x l ih =>
    simp only [List.countP_cons, ih]
    rcases hp : p x <;> rcases hq : q x <;> simp [hp, hq] <;> omega

theorem sum_map_split {α : Type} (L : List α) (f g h : α → ℕ)
    (hfg : ∀ e, f e = g e + h e) :
    (L.map f).sum = (L.map g).sum + (L.map h).sum := by
  induction L with
  | nil => simp
  | cons x L ih =>
    simp only [List.map_cons, List.sum_cons, hfg x, ih]
    omega

theorem specSectionTotal_split (table : List Mistake) (sec : String)
    (exams : List ExamSession) :
    specSectionTotal table sec exams =
      specSectionCorrect table sec exams + specSectionIncorrect table sec exams := by
  refine sum_map_split _ _ _ _ (fun e => ?_)
  exact countP_split e.mistake_ids (isSectionProblem table sec)
    (recordedCorrect e.answers)

theorem pyRound1_zero : pyRound1 0 = 0 := by
  simp [pyRound1]

/-- Claim C7: the statistics operation's per-section counters agree with the
spec-level counts in which an id with no recorded answer counts as
incorrect (total = correct + incorrect, with correct requiring a recorded
`true` answer), and each section's percentage is `correct / total * 100`
rounded to one decimal place, `0` when the section's total is `0`. -/
theorem get_exam_statistics_spec (table : List Mistake) (exams : List ExamSession) :
    (get_exam_statistics table exams).quant_total_problems =
        (specSectionTotal table "Quant" exams : ℤ) ∧
    (get_exam_statistics table exams).quant_correct =
        (specSectionCorrect table "Quant" exams : ℤ) ∧
    (get_exam_statistics table exams).quant_incorrect =
        (specSectionIncorrect table "Quant" exams : ℤ) ∧
    specSectionTotal table "Quant" exams =
      specSectionCorrect table "Quant" exams + specSectionIncorrect table "Quant" exams ∧
    (get_exam_statistics table exams).quant_percentage =
      (if specSectionTotal table "Quant" exams = 0 then 0
       else pyRound1 ((specSectionCorrect table "Quant" exams : ℚ) /
         (specSectionTotal table "Quant" exams : ℚ) * 100)) ∧
    (get_exam_statistics table exams).verbal_total_problems =
        (specSectionTotal table "Verbal" exams : ℤ) ∧
    (get_exam_statistics table exams).verbal_correct =
        (specSectionCorrect table "Verbal" exams : ℤ) ∧
    (get_exam_statistics table exams).verbal_incorrect =
        (specSectionIncorrect table "Verbal" exams : ℤ) ∧
    specSectionTotal table "Verbal" exams =
      specSectionCorrect table "Verbal" exams + specSectionIncorrect table "Verbal" exams ∧
    (get_exam_statistics table exams).verbal_percentage =
      (if specSectionTotal table "Verbal" exams = 0 then 0
       else pyRound1 ((specSectionCorrect table "Verbal" exams : ℚ) /
         (specSectionTotal table "Verbal" exams : ℚ) * 100)) := by
  obtain ⟨h1, h2, h3, h4, h5, h6⟩ := foldl_process_eq table
    (exams.filter (fun e => e.completed_at.isSome)) ⟨0, 0, 0, ∅, 0, 0, 0, ∅⟩
  simp only [get_exam_statistics]
  rw [h1, h2, h3, h4, h5, h6]
  simp only [zero_add]
  refine ⟨rfl, rfl, rfl, specSectionTotal_split table "Quant" exams, ?_,
          rfl, rfl, rfl, specSectionTotal_split table "Verbal" exams, ?_⟩
  · by_cases hz : specSectionTotal table "Quant" exams = 0
    · rw [if_pos hz]
      rw [specSectionTotal] at hz
      have hneg : ¬ (0 : ℤ) <
          (((exams.filter (fun e => e.completed_at.isSome)).map (fun e =>
            e.mistake_ids.countP (isSectionProblem table "Quant"))).sum : ℕ) := by
        simp [hz]
      rw [if_neg hneg, pyRound1_zero]
    · rw [if_neg hz]
      rw [specSectionTotal] at hz
      have hpos : (0 : ℤ) <
          (((exams.filter (fun e => e.completed_at.isSome)).map (fun e =>
            e.mistake_ids.countP (isSectionProblem table "Quant"))).sum : ℕ) := by
        exact_mod_cast Nat.pos_of_ne_zero hz
      rw [if_pos hpos]
      rw [specSectionTotal, specSectionCorrect]
      rw [Int.cast_natCast, Int.cast_natCast]
  · by_cases hz : specSectionTotal table "Verbal" exams = 0
    · rw [if_pos hz]
      rw [specSectionTotal] at hz
      have hneg : ¬ (0 : ℤ) <
          (((exams.filter (fun e => e.completed_at.isSome)).map (fun e =>
            e.mistake_ids.countP (isSectionProblem table "Verbal"))).sum : ℕ) := by
        simp [hz]
      rw [if_neg hneg, pyRound1_zero]
    · rw [if_neg hz]
      rw [specSectionTotal] at hz
      have hpos : (0 : ℤ) <
          (((exams.filter (fun e => e.completed_at.isSome)).map (fun e =>
            e.mistake_ids.countP (isSectionProblem table "Verbal"))).sum : ℕ) := by
        exact_mod_cast Nat.pos_of_ne_zero hz
      rw [if_pos hpos]
      rw [specSectionTotal, specSectionCorrect]
      rw [Int.cast_natCast, Int.cast_natCast]
